import Mathlib

/-!
Verification development for the AI-news pipeline repository.

The definitions below are a shallow embedding of the repository's
JavaScript source: the keyword/domain relevance classifier and filter-rule
loading (`scripts/fetch_news.js`), the summarizer fallback, the
`processNews` orchestration, and the service worker's cache lifecycle and
fetch handlers (`public/sw.js`).  JavaScript strings are modelled as Lean
`String` (a list of characters); fields that may be `null`/`undefined` and
are only consumed through `x || ''` defaulting are modelled as `String`
with `""` standing for the absent value.
-/

/-- Character class of the JavaScript `\s` regex class and of
`String.prototype.trim` (WhiteSpace plus LineTerminator), by code point. -/
def isJsWs (c : Char) : Bool :=
  let n := c.toNat
  n == 0x20 || n == 0x09 || n == 0x0a || n == 0x0b || n == 0x0c || n == 0x0d ||
  n == 0xa0 || n == 0x1680 || (0x2000 ≤ n && n ≤ 0x200a) ||
  n == 0x2028 || n == 0x2029 || n == 0x202f || n == 0x205f || n == 0x3000 || n == 0xfeff

/-- Character class of the JavaScript `\w` regex class: `[A-Za-z0-9_]`. -/
def isWordChar (c : Char) : Bool :=
  c.isAlphanum || c == '_'

/-- Models `String.prototype.trim`: strip leading and trailing whitespace. -/
def jsTrim (s : String) : String :=
  ⟨((s.data.dropWhile isJsWs).reverse.dropWhile isJsWs).reverse⟩

/-- Models `String.prototype.toLowerCase` (character-wise lowering). -/
def jsToLower (s : String) : String :=
  ⟨s.data.map Char.toLower⟩

/-- Models `String.prototype.slice(0, n)`. -/
def jsSlice (s : String) (n : Nat) : String :=
  ⟨s.data.take n⟩

/-- Models JavaScript `a || b` for strings: the empty string is falsy. -/
def jsOr (a b : String) : String :=
  if a == "" then b else a

/-- Does the character list start with the given pattern list
(character-exact)? Used to model `String.prototype.includes`. -/
def startsWithList : List Char → List Char → Bool
  | _, [] => true
  | [], _ :: _ => false
  | c :: l, d :: pre => c == d && startsWithList l pre

/-- Does the character list contain the pattern list as a contiguous
segment? Models `String.prototype.includes`. -/
def containsList : List Char → List Char → Bool
  | [], sub => startsWithList [] sub
  | c :: t, sub => startsWithList (c :: t) sub || containsList t sub

/-- Models `s.includes(sub)`. -/
def jsIncludes (s sub : String) : Bool :=
  containsList s.data sub.data

/-- Does the character list end with the given suffix?  Models
`String.prototype.endsWith`. -/
def endsWithList (l suf : List Char) : Bool :=
  l.drop (l.length - suf.length) == suf

/-! ## Term patterns (`escapeRegExp` / `buildTermPattern`)

`buildTermPattern` in the source compiles
`new RegExp(isShortWord ? "\\b" + escaped + "\\b" : escaped, "i")`
where `escaped` is the trimmed, lowercased term with every regex special
character backslash-escaped (so every character is a literal) and every
whitespace run replaced by `\s+`.  We embed the compiled regex as a list
of atoms — literal characters and `\s+` runs — plus the word-boundary
flag, and give the matching semantics of such a regex directly. -/

inductive PatAtom where
  | lit (c : Char)
  | ws
deriving DecidableEq

/-- Compile a character list into pattern atoms: every character is a
literal (the source's `escapeRegExp` removes all metacharacter meaning)
and each maximal whitespace run becomes one `\s+` atom (the source's
`.replace(/\s+/g, "\\s+")`). -/
def mkAtoms : List Char → List PatAtom
  | [] => []
  | [c] => [if isJsWs c then PatAtom.ws else PatAtom.lit c]
  | c :: d :: rest =>
    if isJsWs c && isJsWs d then mkAtoms (d :: rest)
    else (if isJsWs c then PatAtom.ws else PatAtom.lit c) :: mkAtoms (d :: rest)

/-- The source's short-word test `/^[a-z0-9]{1,3}$/i.test(term.trim())`. -/
def isShortAlnum (t : String) : Bool :=
  1 ≤ t.data.length && t.data.length ≤ 3 && t.data.all Char.isAlphanum

structure TermPattern where
  atoms : List PatAtom
  boundary : Bool
deriving DecidableEq

/-- Embedding of the source's `buildTermPattern(term)`. -/
def buildTermPattern (term : String) : TermPattern :=
  let trimmed := jsTrim term
  { atoms := mkAtoms (jsToLower trimmed).data
    boundary := isShortAlnum trimmed }

/-- Match the atom list against some prefix of the text (text argument
first, so the recursion is structural on the text).  A literal atom
matches one character case-insensitively (the regex is compiled with the
`i` flag); a `\s+` atom matches one or more whitespace characters. -/
def atomsMatchFront : List Char → List PatAtom → Bool
  | _, [] => true
  | [], PatAtom.lit _ :: _ => false
  | [], PatAtom.ws :: _ => false
  | d :: ds, PatAtom.lit c :: as =>
    (Char.toLower d == Char.toLower c) && atomsMatchFront ds as
  | d :: ds, PatAtom.ws :: as =>
    isJsWs d && (atomsMatchFront ds as || atomsMatchFront ds (PatAtom.ws :: as))

/-- Consume the atom list from the front of the text, returning the
remaining text.  Only defined for all-literal atom lists: a word-bounded
pattern comes from a term matching `[a-z0-9]{1,3}`, which contains no
whitespace, so its compiled form has no `\s+` atom. -/
def litConsume : List PatAtom → List Char → Option (List Char)
  | [], cs => some cs
  | PatAtom.lit c :: as, d :: ds =>
    if Char.toLower d == Char.toLower c then litConsume as ds else none
  | PatAtom.lit _ :: _, [] => none
  | PatAtom.ws :: _, _ => none

/-- `\b` condition on the character preceding a match of a word-character
pattern: satisfied at the text start or after a non-word character. -/
def prevOk : Option Char → Bool
  | none => true
  | some c => !isWordChar c

/-- `\b` condition on the text following a match of a word-character
pattern: satisfied at the text end or before a non-word character. -/
def headNotWord : List Char → Bool
  | [] => true
  | c :: _ => !isWordChar c

/-- Does the word-bounded pattern match exactly here (given the previous
character and the rest of the text)? -/
def boundedHere (atoms : List PatAtom) (prev : Option Char) (cs : List Char) : Bool :=
  prevOk prev &&
  (match litConsume atoms cs with
   | some rest => headNotWord rest
   | none => false)

/-- Scan the text left to right, testing the pattern at every position;
`prev` is the character just before the current position. -/
def testFrom (p : TermPattern) : Option Char → List Char → Bool
  | prev, cs =>
    (if p.boundary then boundedHere p.atoms prev cs else atomsMatchFront cs p.atoms) ||
    (match cs with
     | [] => false
     | c :: rest => testFrom p (some c) rest)

/-- Embedding of `pattern.test(text)` for a compiled term pattern. -/
def patternTest (p : TermPattern) (text : String) : Bool :=
  testFrom p none text.data

/-! ## Filter rules and the relevance classifier -/

structure FilterRules where
  allow_keywords : List String
  exclude_domains : List String
  exclude_keywords : List String
deriving DecidableEq

/-- The successfully parsed filter configuration document: each of the
three fields may be present as an array or absent/non-array. -/
structure ParsedFilterConfig where
  allow_keywords : Option (List String)
  exclude_domains : Option (List String)
  exclude_keywords : Option (List String)
deriving DecidableEq

/-- Embedding of `loadFilterRules()`.  The input is the outcome of
`JSON.parse(fs.readFileSync(path))`: `none` models a read or parse
failure (the catch branch), `some parsed` a parsed document whose
non-array fields default to `[]` (`Array.isArray(x) ? x : []`). -/
def loadFilterRules : Option ParsedFilterConfig → FilterRules
  | some parsed =>
    { allow_keywords := parsed.allow_keywords.getD []
      exclude_domains := parsed.exclude_domains.getD []
      exclude_keywords := parsed.exclude_keywords.getD [] }
  | none =>
    { allow_keywords := [], exclude_domains := [], exclude_keywords := [] }

structure TermMatcher where
  term : String
  pattern : TermPattern
deriving DecidableEq

/-- The module-level `allowKeywordMatchers`. -/
def allowKeywordMatchers (rules : FilterRules) : List TermMatcher :=
  rules.allow_keywords.map (fun term => { term := term, pattern := buildTermPattern term })

/-- The module-level `excludeKeywordMatchers`. -/
def excludeKeywordMatchers (rules : FilterRules) : List TermMatcher :=
  rules.exclude_keywords.map (fun term => { term := term, pattern := buildTermPattern term })

/-- Embedding of `findMatchedTerms(text, matchers)`. -/
def findMatchedTerms (text : String) (matchers : List TermMatcher) : List String :=
  (matchers.filter (fun m => patternTest m.pattern text)).map (fun m => jsToLower m.term)

/-- External-API article shape.  `sourceName` flattens `source.name`;
fields the source reads through `x || ''` are `""` when absent. -/
structure RawArticle where
  title : String
  description : String
  content : String
  url : String
  urlToImage : String
  publishedAt : String
  sourceName : String
deriving DecidableEq

/-- Embedding of `extractHost(url)`.  The call `new URL(url).hostname` is
a platform-library call, abstracted as the parameter `urlHost` (`none`
models the constructor throwing on a malformed URL). -/
def extractHost (urlHost : String → Option String) (url : String) : String :=
  if url == "" then ""
  else
    match urlHost url with
    | some h => jsToLower h
    | none => ""

/-- Embedding of `isExcludedDomain(url)` (parameterized by the rules the
source reads from module state). -/
def isExcludedDomain (urlHost : String → Option String) (rules : FilterRules)
    (url : String) : Bool :=
  let host := extractHost urlHost url
  if host == "" then false
  else
    rules.exclude_domains.any (fun domain =>
      let normalized := jsTrim (jsToLower domain)
      host == normalized || endsWithList host.data ("." ++ normalized).data)

/-- The lowercased combined text blob built by `isAiRelatedArticle`. -/
def combinedText (article : RawArticle) : String :=
  jsToLower (article.title ++ "\n" ++ article.description ++ "\n" ++
    article.content ++ "\n" ++ article.sourceName)

/-- Embedding of `isAiRelatedArticle(article)` (the spec's `isRelevant`),
including the source's no-op `hasOnlyAiAsAllowTerm` conditional, whose
branches both reject. -/
def isAiRelatedArticle (urlHost : String → Option String) (rules : FilterRules)
    (article : RawArticle) : Bool :=
  let text := combinedText article
  if isExcludedDomain urlHost rules article.url then false
  else
    let allowHits := findMatchedTerms text (allowKeywordMatchers rules)
    if allowHits.length == 0 then false
    else
      let excludeHits := findMatchedTerms text (excludeKeywordMatchers rules)
      if excludeHits.length > 0 then
        if allowHits.all (fun t => t == "ai") then false else false
      else true

/-! ## Classifier lemmas -/

/-- The classifier, with the source's dead `hasOnlyAiAsAllowTerm`
conditional collapsed: accept exactly when the domain is not excluded,
some allow keyword matches and no exclude keyword matches. -/
lemma isAiRelatedArticle_eq (urlHost : String → Option String) (rules : FilterRules)
    (article : RawArticle) :
    isAiRelatedArticle urlHost rules article =
      (!isExcludedDomain urlHost rules article.url &&
        !(findMatchedTerms (combinedText article) (allowKeywordMatchers rules)).isEmpty &&
        (findMatchedTerms (combinedText article) (excludeKeywordMatchers rules)).isEmpty) := by
  simp only [isAiRelatedArticle]
  cases hd : isExcludedDomain urlHost rules article.url <;>
    cases hA : findMatchedTerms (combinedText article) (allowKeywordMatchers rules) <;>
      cases hE : findMatchedTerms (combinedText article) (excludeKeywordMatchers rules) <;>
        simp [hd, hA, hE]

/-- C1: for every article whose combined text matches at least one
allow-keyword matcher and at least one exclude-keyword matcher,
`isAiRelatedArticle` returns false — exclusion wins unconditionally,
with no override for any particular set of matched allow terms. -/
theorem relevance_exclusion_wins (urlHost : String → Option String)
    (rules : FilterRules) (article : RawArticle)
    (_hallow : findMatchedTerms (combinedText article) (allowKeywordMatchers rules) ≠ [])
    (hexcl : findMatchedTerms (combinedText article) (excludeKeywordMatchers rules) ≠ []) :
    isAiRelatedArticle urlHost rules article = false := by
  rw [isAiRelatedArticle_eq]
  obtain ⟨e, es, he⟩ := List.exists_cons_of_ne_nil hexcl
  rw [he]
  simp

theorem relevance_exclusion_wins_witness :
    isAiRelatedArticle (fun _ => none)
      { allow_keywords := ["ai"], exclude_domains := [], exclude_keywords := ["sports"] }
      { title := "AI breakthrough in sports analytics", description := "", content := "",
        url := "", urlToImage := "", publishedAt := "", sourceName := "" } = false :=
  relevance_exclusion_wins (fun _ => none) _ _ (by decide) (by decide)

/-- C2: an article whose combined text matches no allow-keyword matcher is
rejected; in particular with the empty-rules default returned by
`loadFilterRules` on read or parse failure, every article is rejected
(fail-closed). -/
theorem relevance_fail_closed (urlHost : String → Option String)
    (rules : FilterRules) (article : RawArticle) :
    (findMatchedTerms (combinedText article) (allowKeywordMatchers rules) = [] →
      isAiRelatedArticle urlHost rules article = false) ∧
    (rules = loadFilterRules none → isAiRelatedArticle urlHost rules article = false) := by
  have base : findMatchedTerms (combinedText article) (allowKeywordMatchers rules) = [] →
      isAiRelatedArticle urlHost rules article = false := by
    intro h
    rw [isAiRelatedArticle_eq, h]
    simp
  refine ⟨base, ?_⟩
  intro hr
  subst hr
  exact base rfl

theorem relevance_fail_closed_witness :
    isAiRelatedArticle (fun _ => none) (loadFilterRules none)
      { title := "Artificial intelligence sweeps the awards", description := "", content := "",
        url := "", urlToImage := "", publishedAt := "", sourceName := "" } = false :=
  (relevance_fail_closed (fun _ => none) (loadFilterRules none) _).2 rfl

/-- C3: an article whose URL's hostname exactly equals, or is a subdomain
of, some entry of `exclude_domains` (compared lowercased and trimmed) is
rejected regardless of which keywords match its text. -/
theorem relevance_excluded_domain_rejects (urlHost : String → Option String)
    (rules : FilterRules) (article : RawArticle) (d : String)
    (hd : d ∈ rules.exclude_domains)
    (hhost : extractHost urlHost article.url ≠ "")
    (hmatch : extractHost urlHost article.url = jsTrim (jsToLower d) ∨
      endsWithList (extractHost urlHost article.url).data
        ("." ++ jsTrim (jsToLower d)).data = true) :
    isAiRelatedArticle urlHost rules article = false := by
  have h1 : (extractHost urlHost article.url == "") = false := by
    rw [beq_eq_false_iff_ne]
    exact hhost
  have hex : isExcludedDomain urlHost rules article.url = true := by
    simp only [isExcludedDomain, h1, Bool.false_eq_true, if_false, List.any_eq_true]
    refine ⟨d, hd, ?_⟩
    rcases hmatch with h | h
    · simp [h]
    · rw [h, Bool.or_true]
  rw [isAiRelatedArticle_eq, hex]
  simp

theorem relevance_excluded_domain_rejects_witness :
    isAiRelatedArticle (fun _ => some "news.example.com")
      { allow_keywords := ["ai"], exclude_domains := ["example.com"], exclude_keywords := [] }
      { title := "AI stuff", description := "", content := "",
        url := "https://news.example.com/x", urlToImage := "", publishedAt := "",
        sourceName := "" } = false :=
  relevance_excluded_domain_rejects (fun _ => some "news.example.com") _ _ "example.com"
    (by decide) (by decide) (Or.inr (by decide))

/-- C10: a blank (empty or whitespace-only) entry in `allow_keywords`
compiles to a pattern that matches every text, so every article whose
domain is not excluded and whose text hits no exclude keyword is
accepted — a single blank allow entry turns the classifier fail-open. -/
theorem blank_allow_term_fail_open (urlHost : String → Option String)
    (rules : FilterRules) (article : RawArticle) (t : String)
    (ht : t ∈ rules.allow_keywords) (htrim : jsTrim t = "") :
    (∀ s : String, patternTest (buildTermPattern t) s = true) ∧
    (isExcludedDomain urlHost rules article.url = false →
      findMatchedTerms (combinedText article) (excludeKeywordMatchers rules) = [] →
      isAiRelatedArticle urlHost rules article = true) := by
  have hpat : buildTermPattern t = { atoms := [], boundary := false } := by
    simp only [buildTermPattern, htrim]
    rfl
  have hall : ∀ s : String, patternTest (buildTermPattern t) s = true := by
    intro s
    rw [patternTest, hpat]
    unfold testFrom
    simp [atomsMatchFront]
  refine ⟨hall, ?_⟩
  intro hnd hexcl
  rw [isAiRelatedArticle_eq, hnd, hexcl]
  have hm : ({ term := t, pattern := buildTermPattern t } : TermMatcher) ∈
      allowKeywordMatchers rules :=
    List.mem_map_of_mem _ ht
  have hf : ({ term := t, pattern := buildTermPattern t } : TermMatcher) ∈
      (allowKeywordMatchers rules).filter
        (fun m => patternTest m.pattern (combinedText article)) :=
    List.mem_filter.mpr ⟨hm, hall _⟩
  have hmem : jsToLower t ∈ findMatchedTerms (combinedText article) (allowKeywordMatchers rules) :=
    List.mem_map_of_mem _ hf
  obtain ⟨a, as, ha⟩ := List.exists_cons_of_ne_nil (List.ne_nil_of_mem hmem)
  rw [ha]
  simp

theorem blank_allow_term_fail_open_witness :
    isAiRelatedArticle (fun _ => none)
      { allow_keywords := [" "], exclude_domains := [], exclude_keywords := [] }
      { title := "anything at all", description := "", content := "",
        url := "", urlToImage := "", publishedAt := "", sourceName := "" } = true :=
  (blank_allow_term_fail_open (fun _ => none) _ _ " " (by decide) (by decide)).2 rfl rfl

/-! ## Term-pattern lemmas (for the boundary behaviour of short terms) -/

/-- The character immediately before the current scan position: the last
character of `pre` when `pre` is nonempty, else the ambient previous
character. -/
def lastOpt : Option Char → List Char → Option Char
  | prev, [] => prev
  | _, c :: cs => lastOpt (some c) cs

lemma litConsume_append (atoms : List PatAtom) :
    ∀ (cs rest : List Char), litConsume atoms cs = some rest →
    ∃ seg, cs = seg ++ rest ∧ seg.length = atoms.length := by
  induction atoms with
  | nil =>
    intro cs rest h
    simp only [litConsume, Option.some.injEq] at h
    exact ⟨[], by simp [h], rfl⟩
  | cons a as ih =>
    intro cs rest h
    cases a with
    | ws => simp [litConsume] at h
    | lit c =>
      cases cs with
      | nil => simp [litConsume] at h
      | cons d ds =>
        simp only [litConsume] at h
        split at h
        · obtain ⟨seg, hseg, hlen⟩ := ih ds rest h
          exact ⟨d :: seg, by simp [hseg], by simp [hlen]⟩
        · simp at h

lemma boundedHere_sound (atoms : List PatAtom) (prev : Option Char) (cs : List Char)
    (h : boundedHere atoms prev cs = true) :
    prevOk prev = true ∧ ∃ post, litConsume atoms cs = some post ∧ headNotWord post = true := by
  unfold boundedHere at h
  simp only [Bool.and_eq_true] at h
  obtain ⟨h1, h2⟩ := h
  refine ⟨h1, ?_⟩
  cases hlc : litConsume atoms cs with
  | none => rw [hlc] at h2; cases h2
  | some post => rw [hlc] at h2; exact ⟨post, rfl, h2⟩

/-- Soundness of the scanner for word-bounded patterns: a successful test
yields a decomposition of the text around a pattern match whose two ends
satisfy the `\b` conditions. -/
lemma testFrom_bounded_sound (p : TermPattern) (hb : p.boundary = true) :
    ∀ (cs : List Char) (prev : Option Char), testFrom p prev cs = true →
    ∃ pre seg post, cs = pre ++ seg ++ post ∧
      litConsume p.atoms (seg ++ post) = some post ∧
      seg.length = p.atoms.length ∧
      prevOk (lastOpt prev pre) = true ∧ headNotWord post = true := by
  intro cs
  induction cs with
  | nil =>
    intro prev h
    rw [testFrom, hb] at h
    simp only [if_true, Bool.or_false] at h
    obtain ⟨h1, post, hlc, hh⟩ := boundedHere_sound _ _ _ h
    obtain ⟨seg, hseg, hlen⟩ := litConsume_append _ _ _ hlc
    refine ⟨[], seg, post, by simp [hseg], ?_, hlen, h1, hh⟩
    rw [← hseg]; exact hlc
  | cons c rest ih =>
    intro prev h
    rw [testFrom, hb] at h
    simp only [if_true, Bool.or_eq_true] at h
    rcases h with h1 | h2
    · obtain ⟨hp, post, hlc, hh⟩ := boundedHere_sound _ _ _ h1
      obtain ⟨seg, hseg, hlen⟩ := litConsume_append _ _ _ hlc
      refine ⟨[], seg, post, by simp [hseg], ?_, hlen, hp, hh⟩
      rw [← hseg]; exact hlc
    · obtain ⟨pre, seg, post, hdec, hlc, hlen, hprev, hh⟩ := ih (some c) h2
      exact ⟨c :: pre, seg, post, by simp [hdec], hlc, hlen, hprev, hh⟩

lemma mkAtoms_ws_head : ∀ (l : List Char) (c : Char), isJsWs c = true →
    ∃ as, mkAtoms (c :: l) = PatAtom.ws :: as := by
  intro l
  induction l with
  | nil => intro c hc; exact ⟨[], by simp [mkAtoms, hc]⟩
  | cons d rest ih =>
    intro c hc
    cases hd : isJsWs d
    · exact ⟨mkAtoms (d :: rest), by simp [mkAtoms, hc, hd]⟩
    · obtain ⟨as, has⟩ := ih d hd
      exact ⟨as, by simp [mkAtoms, hc, hd, has]⟩

/-- Completeness for plain-substring patterns: the compiled atoms of any
character list match at an occurrence of that very list in the text. -/
lemma atomsMatchFront_self : ∀ (l v : List Char), atomsMatchFront (l ++ v) (mkAtoms l) = true := by
  intro l
  induction l with
  | nil => intro v; simp [mkAtoms, atomsMatchFront]
  | cons c t ih =>
    intro v
    cases t with
    | nil =>
      cases hc : isJsWs c
      · simp [mkAtoms, hc, atomsMatchFront]
      · simp [mkAtoms, hc, atomsMatchFront]
    | cons d rest =>
      cases hc : isJsWs c
      · have hmk : mkAtoms (c :: d :: rest) = PatAtom.lit c :: mkAtoms (d :: rest) := by
          simp [mkAtoms, hc]
        rw [hmk]
        show atomsMatchFront (c :: ((d :: rest) ++ v)) (PatAtom.lit c :: mkAtoms (d :: rest)) = true
        simp only [atomsMatchFront, beq_self_eq_true, Bool.true_and]
        exact ih v
      · cases hd : isJsWs d
        · have hmk : mkAtoms (c :: d :: rest) = PatAtom.ws :: mkAtoms (d :: rest) := by
            simp [mkAtoms, hc, hd]
          rw [hmk]
          show atomsMatchFront (c :: ((d :: rest) ++ v)) (PatAtom.ws :: mkAtoms (d :: rest)) = true
          simp only [atomsMatchFront, hc, Bool.true_and, Bool.or_eq_true]
          exact Or.inl (ih v)
        · obtain ⟨as, has⟩ := mkAtoms_ws_head rest d hd
          have hmk : mkAtoms (c :: d :: rest) = mkAtoms (d :: rest) := by
            simp [mkAtoms, hc, hd]
          have hrec := ih v
          rw [has] at hrec
          rw [hmk, has]
          show atomsMatchFront (c :: ((d :: rest) ++ v)) (PatAtom.ws :: as) = true
          simp only [atomsMatchFront, hc, Bool.true_and, Bool.or_eq_true]
          exact Or.inr hrec

/-- A non-bounded pattern that matches at some position makes the whole
scan succeed. -/
lemma testFrom_of_matchFront (p : TermPattern) (hb : p.boundary = false)
    (cs : List Char) (hm : atomsMatchFront cs p.atoms = true) :
    ∀ (u : List Char) (prev : Option Char), testFrom p prev (u ++ cs) = true := by
  intro u
  induction u with
  | nil =>
    intro prev
    rw [testFrom.eq_def, hb]
    simp [hm]
  | cons a u' ih =>
    intro prev
    rw [testFrom.eq_def, hb]
    simp [ih (some a)]

/-- C4 counterexample: the term `"c+"` has length 2 ≤ 3, yet its compiled
matcher carries no word-boundary (the source only bounds terms matching
`[a-z0-9]{1,3}`) and matches inside the longer word `"abc"` of
`"abc+d"`, where a word-bounded matcher would not match. -/
theorem short_term_boundary_cex :
    ("c+" : String).length ≤ 3 ∧
    (buildTermPattern "c+").boundary = false ∧
    patternTest (buildTermPattern "c+") "abc+d" = true :=
  ⟨by decide, by decide, by decide⟩

/-- C4 (amended): for every term whose trimmed form is purely
alphanumeric of length ≤ 3, the compiled matcher enforces whole-word
boundaries — any successful test decomposes the text around a pattern
match flanked by non-word characters or text ends (so e.g. `"ai"` does
not match inside `"said"`); for every other term the matcher matches
wherever the trimmed lowercased term occurs as a substring, regardless of
word boundaries (special characters being literal). -/
theorem buildTermPattern_boundary_spec (term : String) (text : String) :
    (isShortAlnum (jsTrim term) = true →
      patternTest (buildTermPattern term) text = true →
      ∃ pre seg post, text.data = pre ++ seg ++ post ∧
        litConsume (buildTermPattern term).atoms (seg ++ post) = some post ∧
        seg.length = (buildTermPattern term).atoms.length ∧
        prevOk (lastOpt none pre) = true ∧ headNotWord post = true) ∧
    (isShortAlnum (jsTrim term) = false →
      ∀ u v : List Char,
        patternTest (buildTermPattern term)
          ⟨u ++ (jsToLower (jsTrim term)).data ++ v⟩ = true) ∧
    patternTest (buildTermPattern "ai") "said" = false := by
  refine ⟨?_, ?_, by decide⟩
  · intro hshort htest
    have hb : (buildTermPattern term).boundary = true := by
      simp [buildTermPattern, hshort]
    exact testFrom_bounded_sound _ hb text.data none htest
  · intro hlong u v
    have hb : (buildTermPattern term).boundary = false := by
      simp [buildTermPattern, hlong]
    have hm : atomsMatchFront ((jsToLower (jsTrim term)).data ++ v)
        (buildTermPattern term).atoms = true := by
      have h := atomsMatchFront_self (jsToLower (jsTrim term)).data v
      simpa [buildTermPattern] using h
    have h := testFrom_of_matchFront _ hb _ hm u none
    simpa [patternTest, List.append_assoc] using h

theorem buildTermPattern_boundary_spec_witness :
    patternTest (buildTermPattern "machine learning")
      ⟨"new ".data ++ (jsToLower (jsTrim "machine learning")).data ++ " model".data⟩ = true :=
  (buildTermPattern_boundary_spec "machine learning" "").2.1 (by decide)
    "new ".data " model".data

/-! ## Summarizer adapter (`buildFallbackSummary` / `summarizeArticle`) -/

structure SummaryResult where
  title_ja : String
  summary_ja : String
deriving DecidableEq

/-- The fixed message used when both description and title are empty. -/
def summaryUnavailable : String := "記事の要約を取得できませんでした。"

/-- Embedding of `buildFallbackSummary(article)`: description, else
title, else the fixed message, truncated to 200 characters with a
trailing ellipsis when truncation happened. -/
def buildFallbackSummary (article : RawArticle) : String :=
  let base := jsOr article.description (jsOr article.title summaryUnavailable)
  if base.length > 200 then jsSlice base 197 ++ "..." else base

/-- Outcome of one language-model call as seen by `summarizeArticle`:
`failure` models a transport error or a reply that is not JSON after
code-fence stripping (the catch branch); `parsed` models a parsed JSON
reply whose fields, read through `json.x || fallback`, are `""` when
missing. -/
inductive SummarizeOutcome where
  | failure
  | parsed (title_ja summary_ja : String)
deriving DecidableEq

/-- Embedding of `summarizeArticle(article)` as a function of the model
call's outcome. -/
def summarizeArticle (outcome : SummarizeOutcome) (article : RawArticle) : SummaryResult :=
  match outcome with
  | .failure =>
    { title_ja := article.title, summary_ja := buildFallbackSummary article }
  | .parsed t s =>
    { title_ja := jsOr t article.title, summary_ja := jsOr s (buildFallbackSummary article) }

/-- Outcomes on which the summarizer falls back entirely: a thrown
failure, or a parsed reply with both fields missing. -/
def isFallbackOutcome : SummarizeOutcome → Bool
  | .failure => true
  | .parsed t s => t == "" && s == ""

lemma strLength_append (s t : String) : (s ++ t).length = s.length + t.length :=
  String.length_append s t

/-- C5: on any summarization failure (transport error, non-JSON reply,
or missing fields) the summarizer returns, instead of raising, the
original title as `title_ja` and as `summary_ja` the fallback — the
description, else the title, else the fixed unavailable message —
whose length never exceeds 200 characters, with an ellipsis marker
appended exactly when truncation occurred. -/
theorem summarize_failure_fallback (outcome : SummarizeOutcome) (article : RawArticle)
    (h : isFallbackOutcome outcome = true) :
    (summarizeArticle outcome article).title_ja = article.title ∧
    (summarizeArticle outcome article).summary_ja = buildFallbackSummary article ∧
    (buildFallbackSummary article).length ≤ 200 ∧
    ((jsOr article.description (jsOr article.title summaryUnavailable)).length > 200 →
      buildFallbackSummary article =
        jsSlice (jsOr article.description (jsOr article.title summaryUnavailable)) 197 ++ "...") ∧
    ((jsOr article.description (jsOr article.title summaryUnavailable)).length ≤ 200 →
      buildFallbackSummary article =
        jsOr article.description (jsOr article.title summaryUnavailable)) := by
  have hmain : (summarizeArticle outcome article).title_ja = article.title ∧
      (summarizeArticle outcome article).summary_ja = buildFallbackSummary article := by
    cases outcome with
    | failure => exact ⟨rfl, rfl⟩
    | parsed t s =>
      simp only [isFallbackOutcome, Bool.and_eq_true, beq_iff_eq] at h
      obtain ⟨ht, hs⟩ := h
      subst ht; subst hs
      exact ⟨rfl, rfl⟩
  refine ⟨hmain.1, hmain.2, ?_, ?_, ?_⟩ <;>
    unfold buildFallbackSummary <;>
      by_cases hlen : (jsOr article.description (jsOr article.title summaryUnavailable)).length > 200
  · rw [if_pos hlen, strLength_append]
    have h197 : (jsSlice (jsOr article.description (jsOr article.title summaryUnavailable)) 197).length ≤ 197 := by
      simp only [jsSlice, String.length, List.length_take]
      omega
    have h3 : ("..." : String).length = 3 := rfl
    omega
  · rw [if_neg hlen]
    omega
  · intro hgt
    rw [if_pos hlen]
  · intro hgt
    exact absurd hgt hlen
  · intro hle
    exact absurd hlen (by omega)
  · intro hle
    rw [if_neg hlen]

theorem summarize_failure_fallback_witness :
    (summarizeArticle SummarizeOutcome.failure
      { title := "Model ships", description := "It is fast.", content := "", url := "",
        urlToImage := "", publishedAt := "", sourceName := "" }).title_ja = "Model ships" ∧
    (summarizeArticle SummarizeOutcome.failure
      { title := "Model ships", description := "It is fast.", content := "", url := "",
        urlToImage := "", publishedAt := "", sourceName := "" }).summary_ja = "It is fast." := by
  have h := summarize_failure_fallback SummarizeOutcome.failure
    { title := "Model ships", description := "It is fast.", content := "", url := "",
      urlToImage := "", publishedAt := "", sourceName := "" } rfl
  refine ⟨h.1, ?_⟩
  rw [h.2.1]
  decide

/-! ## Ingestion pipeline (`processNews`) -/

structure ProcessedArticle where
  title : String
  title_ja : String
  original_url : String
  image_url : String
  published_at : String
  source : String
  summary_ja : String
deriving DecidableEq

structure Snapshot where
  updated_at : String
  articles : List ProcessedArticle
deriving DecidableEq

/-- The sort key `new Date(a.publishedAt || 0).getTime()`: a missing
timestamp is epoch 0; parsing a present timestamp string is the platform
`Date` constructor, abstracted as `getTime`. -/
def articleSortKey (getTime : String → Int) (a : RawArticle) : Int :=
  if a.publishedAt == "" then 0 else getTime a.publishedAt

/-- The same key read off a snapshot entry (whose `published_at` copies
the raw article's `publishedAt`). -/
def processedSortKey (getTime : String → Int) (p : ProcessedArticle) : Int :=
  if p.published_at == "" then 0 else getTime p.published_at

/-- Insertion into a list sorted by descending key. -/
def insertDesc (key : RawArticle → Int) (a : RawArticle) :
    List RawArticle → List RawArticle
  | [] => [a]
  | b :: l => if key b < key a then a :: b :: l else b :: insertDesc key a l

/-- Models `.sort((a, b) => dateB - dateA)`: sort by descending key. -/
def sortDesc (key : RawArticle → Int) : List RawArticle → List RawArticle
  | [] => []
  | a :: l => insertDesc key a (sortDesc key l)

/-- The candidate-selection prefix of `processNews()`: drop `[Removed]`
sentinels, keep relevant articles, sort by publish time descending, take
the first 20. -/
def relevantTopArticles (urlHost : String → Option String) (rules : FilterRules)
    (getTime : String → Int) (fetched : List RawArticle) : List RawArticle :=
  let validArticles := fetched.filter (fun a => !(a.title == "[Removed]"))
  let filteredArticles := validArticles.filter (isAiRelatedArticle urlHost rules)
  let sortedArticles := sortDesc (articleSortKey getTime) filteredArticles
  sortedArticles.take 20

/-- The snapshot entry pushed by the summarization loop for one article. -/
def toProcessedArticle (s : SummaryResult) (a : RawArticle) : ProcessedArticle :=
  { title := a.title, title_ja := s.title_ja, original_url := a.url,
    image_url := a.urlToImage, published_at := a.publishedAt,
    source := a.sourceName, summary_ja := s.summary_ja }

/-- Embedding of `processNews()`.  Returns `none` when the run terminates
without writing any file (no fetched articles, or no survivors after
filtering and truncation), else the snapshot written to `latest.json`
paired with the date key of the archive file receiving the same contents.
`outcomes` gives each article's model-call outcome; `nowIso` and
`todayKey` are the run's wall-clock readings. -/
def processNews (urlHost : String → Option String) (rules : FilterRules)
    (getTime : String → Int) (outcomes : RawArticle → SummarizeOutcome)
    (nowIso todayKey : String) (fetched : List RawArticle) :
    Option (Snapshot × String) :=
  if fetched.length == 0 then none
  else
    let topArticles := relevantTopArticles urlHost rules getTime fetched
    if topArticles.length == 0 then none
    else
      let processedArticles :=
        topArticles.map (fun a => toProcessedArticle (summarizeArticle (outcomes a) a) a)
      some ({ updated_at := nowIso, articles := processedArticles }, todayKey)

/-- C6: a run that fetches zero candidates, or whose filtered, sorted and
truncated survivor list is empty, terminates without writing the latest
snapshot or any archive file. -/
theorem processNews_empty_run_writes_nothing (urlHost : String → Option String)
    (rules : FilterRules) (getTime : String → Int)
    (outcomes : RawArticle → SummarizeOutcome) (nowIso todayKey : String)
    (fetched : List RawArticle)
    (h : fetched = [] ∨ relevantTopArticles urlHost rules getTime fetched = []) :
    processNews urlHost rules getTime outcomes nowIso todayKey fetched = none := by
  rcases h with h | h
  · subst h; rfl
  · unfold processNews
    cases hf : (fetched.length == 0) <;> simp [hf, h]

theorem processNews_empty_run_writes_nothing_witness :
    processNews (fun _ => none) (loadFilterRules none) (fun _ => 0)
      (fun _ => SummarizeOutcome.failure)
      "2026-10-12T00:00:00Z" "2026-10-12" [] = none :=
  processNews_empty_run_writes_nothing (fun _ => none) _ (fun _ => 0)
    (fun _ => SummarizeOutcome.failure) _ _ [] (Or.inl rfl)

lemma mem_insertDesc (key : RawArticle → Int) (a x : RawArticle) :
    ∀ l, x ∈ insertDesc key a l → x = a ∨ x ∈ l := by
  intro l
  induction l with
  | nil =>
    intro h
    unfold insertDesc at h
    simp at h
    exact Or.inl h
  | cons b t ih =>
    intro h
    unfold insertDesc at h
    split at h
    · rcases List.mem_cons.mp h with h1 | h2
      · exact Or.inl h1
      · exact Or.inr h2
    · rcases List.mem_cons.mp h with h1 | h2
      · exact Or.inr (by simp [h1])
      · rcases ih h2 with h3 | h4
        · exact Or.inl h3
        · exact Or.inr (by simp [h4])

lemma pairwise_insertDesc (key : RawArticle → Int) (a : RawArticle) :
    ∀ l, List.Pairwise (fun x y => key y ≤ key x) l →
    List.Pairwise (fun x y => key y ≤ key x) (insertDesc key a l) := by
  intro l
  induction l with
  | nil => intro _; simp [insertDesc]
  | cons b t ih =>
    intro hp
    rw [List.pairwise_cons] at hp
    obtain ⟨hb, ht⟩ := hp
    unfold insertDesc
    split
    · rename_i hlt
      rw [List.pairwise_cons]
      refine ⟨?_, List.pairwise_cons.mpr ⟨hb, ht⟩⟩
      intro y hy
      rcases List.mem_cons.mp hy with h1 | h2
      · rw [h1]; exact le_of_lt hlt
      · exact le_trans (hb y h2) (le_of_lt hlt)
    · rename_i hge
      rw [List.pairwise_cons]
      refine ⟨?_, ih ht⟩
      intro y hy
      rcases mem_insertDesc key a y t hy with h1 | h2
      · rw [h1]; exact le_of_not_lt hge
      · exact hb y h2

lemma pairwise_sortDesc (key : RawArticle → Int) :
    ∀ l, List.Pairwise (fun x y => key y ≤ key x) (sortDesc key l) := by
  intro l
  induction l with
  | nil => simp [sortDesc]
  | cons a t ih => exact pairwise_insertDesc key a _ ih

/-- C7: every snapshot a run writes lists at most 20 articles, ordered by
descending publish time (a missing timestamp sorting as epoch 0), and is
exactly the summarization image, in order, of the selected candidates —
the summarization stage preserves the sorted order. -/
theorem processNews_snapshot_sorted_capped (urlHost : String → Option String)
    (rules : FilterRules) (getTime : String → Int)
    (outcomes : RawArticle → SummarizeOutcome) (nowIso todayKey : String)
    (fetched : List RawArticle) (snap : Snapshot) (day : String)
    (h : processNews urlHost rules getTime outcomes nowIso todayKey fetched =
      some (snap, day)) :
    snap.articles.length ≤ 20 ∧
    List.Pairwise
      (fun p q => processedSortKey getTime q ≤ processedSortKey getTime p)
      snap.articles ∧
    snap.articles = (relevantTopArticles urlHost rules getTime fetched).map
      (fun a => toProcessedArticle (summarizeArticle (outcomes a) a) a) := by
  simp only [processNews] at h
  split at h
  · simp at h
  · split at h
    · simp at h
    · rw [Option.some.injEq, Prod.mk.injEq] at h
      obtain ⟨hsnap, _hday⟩ := h
      have harts : snap.articles =
          (relevantTopArticles urlHost rules getTime fetched).map
            (fun a => toProcessedArticle (summarizeArticle (outcomes a) a) a) := by
        rw [← hsnap]
      refine ⟨?_, ?_, harts⟩
      · rw [harts, List.length_map]
        unfold relevantTopArticles
        rw [List.length_take]
        omega
      · rw [harts, List.pairwise_map]
        have hsorted : List.Pairwise
            (fun x y => articleSortKey getTime y ≤ articleSortKey getTime x)
            (relevantTopArticles urlHost rules getTime fetched) := by
          unfold relevantTopArticles
          exact (pairwise_sortDesc (articleSortKey getTime) _).sublist
            (List.take_sublist 20 _)
        exact hsorted

theorem processNews_snapshot_sorted_capped_witness :
    ([{ title := "ai", title_ja := "ai", original_url := "", image_url := "",
        published_at := "", source := "", summary_ja := "ai" }] :
      List ProcessedArticle).length ≤ 20 ∧
    List.Pairwise
      (fun p q => processedSortKey (fun _ => 0) q ≤ processedSortKey (fun _ => 0) p)
      ([{ title := "ai", title_ja := "ai", original_url := "", image_url := "",
          published_at := "", source := "", summary_ja := "ai" }] :
        List ProcessedArticle) :=
  have h := processNews_snapshot_sorted_capped (fun _ => none)
    { allow_keywords := ["ai"], exclude_domains := [], exclude_keywords := [] }
    (fun _ => 0) (fun _ => SummarizeOutcome.failure) "now" "2026-10-12"
    [{ title := "ai", description := "", content := "", url := "",
       urlToImage := "", publishedAt := "", sourceName := "" }]
    { updated_at := "now",
      articles := [{ title := "ai", title_ja := "ai", original_url := "",
                     image_url := "", published_at := "", source := "",
                     summary_ja := "ai" }] }
    "2026-10-12" (by decide)
  ⟨h.1, h.2.1⟩

/-! ## Offline cache layer (service worker) -/

/-- The current cache version name (`CACHE_NAME` in the service worker). -/
def CACHE_NAME : String := "ai-news-v2"

/-- Embedding of the `activate` listener: `caches.keys()` yields the
existing cache names, and every name different from `CACHE_NAME` is
passed to `caches.delete`, so the caches surviving activation are exactly
the entries named `CACHE_NAME`. -/
def activateSurvivors (cacheNames : List String) : List String :=
  cacheNames.filter (fun cacheName => cacheName == CACHE_NAME)

lemma activateSurvivors_single :
    ∀ (cacheNames : List String), cacheNames.Nodup → CACHE_NAME ∈ cacheNames →
    activateSurvivors cacheNames = [CACHE_NAME] := by
  intro cacheNames
  induction cacheNames with
  | nil => intro _ hmem; simp at hmem
  | cons x t ih =>
    intro hnd hmem
    rw [List.nodup_cons] at hnd
    rcases List.mem_cons.mp hmem with h1 | h2
    · have hft : t.filter (fun n => n == CACHE_NAME) = [] := by
        rw [List.filter_eq_nil_iff]
        intro a ha
        simp only [beq_iff_eq]
        intro hEq
        rw [hEq] at ha
        rw [← h1] at hnd
        exact hnd.1 ha
      simp [activateSurvivors, List.filter_cons, ← h1, hft]
    · have hx : (x == CACHE_NAME) = false := by
        rw [beq_eq_false_iff_ne]
        intro hEq
        rw [hEq] at hnd
        exact hnd.1 h2
      have ht := ih hnd.2 h2
      simp only [activateSurvivors, List.filter_cons, hx] at ht ⊢
      simpa using ht

/-- C8: on activation, every existing cache whose name differs from the
current version name is deleted and the current one is retained; on a
duplicate-free registry containing the current version, exactly the
current cache version remains live. -/
theorem activate_single_live_cache (cacheNames : List String) :
    (∀ n, n ∈ activateSurvivors cacheNames ↔ (n ∈ cacheNames ∧ n = CACHE_NAME)) ∧
    (cacheNames.Nodup → CACHE_NAME ∈ cacheNames →
      activateSurvivors cacheNames = [CACHE_NAME]) := by
  refine ⟨?_, activateSurvivors_single cacheNames⟩
  intro n
  simp [activateSurvivors, List.mem_filter]

theorem activate_single_live_cache_witness :
    activateSurvivors ["ai-news-v1", "ai-news-v2", "other"] = ["ai-news-v2"] :=
  (activate_single_live_cache ["ai-news-v1", "ai-news-v2", "other"]).2
    (by decide) (by decide)

/-- A service-worker response, as inspected by the fetch handler. -/
structure SwResponse where
  status : Nat
  type : String
  body : String
deriving DecidableEq

/-- Embedding of the data-endpoint branch of the `fetch` listener: given
the network outcome (`none` models the fetch promise rejecting) and the
cached entry for the request (`caches.match`, `none` = miss), returns the
response served to the client (`none` = no servable response) paired with
the cache write performed (`cache.put` of the clone, done only for a
status-200 `"basic"` response). -/
def handleDataRequest (network cached : Option SwResponse) :
    Option SwResponse × Option SwResponse :=
  match network with
  | some response =>
    if response.status != 200 || response.type != "basic" then (some response, none)
    else (some response, some response)
  | none => (cached, none)

/-- Embedding of the `fetch` listener dispatch: requests whose URL
contains `/data/latest.json` are served network-first with cache
fallback; all other requests cache-first with network fallback (never
writing the cache). -/
def handleFetch (url : String) (network cached : Option SwResponse) :
    Option SwResponse × Option SwResponse :=
  if jsIncludes url "/data/latest.json" then handleDataRequest network cached
  else
    match cached with
    | some response => (some response, none)
    | none => (network, none)

/-- C9: for a data-endpoint fetch, the network is tried first: on network
success the live network response is served, and it is written to the
cache exactly when its status is 200 and its type is `"basic"`; on
network failure the cached copy (present or absent) is served as is, so a
miss propagates as no servable response. -/
theorem data_fetch_network_first (url : String) (network cached : Option SwResponse)
    (hurl : jsIncludes url "/data/latest.json" = true) :
    (∀ r, network = some r →
      (handleFetch url network cached).1 = some r ∧
      ((handleFetch url network cached).2 = some r ↔
        (r.status = 200 ∧ r.type = "basic"))) ∧
    (network = none →
      (handleFetch url network cached).1 = cached ∧
      (handleFetch url network cached).2 = none) := by
  constructor
  · intro r hr
    subst hr
    simp only [handleFetch, hurl, if_true, handleDataRequest]
    by_cases hs : r.status = 200
    · by_cases htp : r.type = "basic"
      · simp [hs, htp]
      · simp [hs, htp]
    · simp [hs]
  · intro hn
    subst hn
    simp [handleFetch, hurl, handleDataRequest]

theorem data_fetch_network_first_witness :
    (handleFetch "https://example.org/data/latest.json" none none).1 = none ∧
    (handleFetch "https://example.org/data/latest.json" none none).2 = none :=
  (data_fetch_network_first "https://example.org/data/latest.json" none none
    (by decide)).2 rfl
